import Mathlib

/-!
Shallow embedding of the core of the `dat` migration tool
(cmd/dat/utils.go plus the option parsing in the unnamed main file),
covering:

* the batch splitter and script executor (execScript),
* the migration runner (runUpScripts) against an explicit model of the
  database collaborator (connection, transaction, ledger),
* the history reconciliation check (verifyMigrationsHistory),
* the error locator (extractLineColumn) and the strconv.Atoi parse it uses.

Strings are modelled as Lean String / List Char; Go byte indexing
coincides with character indexing on the ASCII inputs involved here.
-/

/-- The Go standard predicate unicode.IsSpace, used by the mgutz str
library function str.IsEmpty: the Unicode White_Space code points. -/
def goIsSpace (c : Char) : Bool :=
  decide (c = ' ' ∨ c = '\t' ∨ c = '\n' ∨ c = '\x0b' ∨ c = '\x0c' ∨ c = '\r' ∨
    c = '\x85' ∨ c = '\xa0' ∨ c.toNat = 0x1680 ∨
    (0x2000 ≤ c.toNat ∧ c.toNat ≤ 0x200a) ∨
    c.toNat = 0x2028 ∨ c.toNat = 0x2029 ∨ c.toNat = 0x202f ∨
    c.toNat = 0x205f ∨ c.toNat = 0x3000)

/-- str.IsEmpty from the mgutz str library: strings.TrimSpace(s) == "",
i.e. every character of the string is white space. -/
def strIsEmpty (s : String) : Bool :=
  s.data.all goIsSpace

/-- strings.Contains on character lists: pat occurs contiguously in hay. -/
def containsSubList (hay pat : List Char) : Bool :=
  (List.range (hay.length + 1)).any (fun i => pat.isPrefixOf (hay.drop i))

/-- strings.Contains(hay, pat) from the Go standard library. -/
def containsSubstring (hay pat : String) : Bool :=
  containsSubList hay.data pat.data

/-- Accumulator loop for a run of decimal digits: fails on the first
non-digit character, otherwise builds the base-10 value. -/
def digitsToNatAux : List Char → Nat → Option Nat
  | [], acc => some acc
  | c :: rest, acc =>
    if '0' ≤ c ∧ c ≤ '9' then
      digitsToNatAux rest (acc * 10 + (c.toNat - '0'.toNat))
    else none

/-- A non-empty all-digit run parsed to a Nat; none if empty or if any
character is not a decimal digit. -/
def digitsToNat : List Char → Option Nat
  | [] => none
  | l => digitsToNatAux l 0

/-- strconv.Atoi from the Go standard library on a 64-bit platform:
an optional sign, then at least one decimal digit, and the value must
fit in int64; none models a non-nil error return. -/
def goAtoi (s : String) : Option Int :=
  match s.data with
  | [] => none
  | c :: rest =>
    let signedDigits : Bool × List Char :=
      if c = '-' then (true, rest)
      else if c = '+' then (false, rest)
      else (false, c :: rest)
    match digitsToNat signedDigits.2 with
    | none => none
    | some n =>
      let v : Int := if signedDigits.1 then -(n : Int) else (n : Int)
      if v < -(2 ^ 63) ∨ 2 ^ 63 - 1 < v then none else some v

/-- The split loop of the package variable reBatchSeparator
(utils.go line 266), the compiled regular expression (m-flag)^GO(newline):
a match is the three characters G O newline occurring at the start of the
text or immediately after a newline; matches are found left to right and
consumed whole, exactly as regexp Split does. atStart tracks whether the
current scan position is at a line start, acc holds the current segment
in reverse. -/
def goSplitAux : List Char → Bool → List Char → List (List Char)
  | [], _, acc => [acc.reverse]
  | 'G' :: 'O' :: '\n' :: rest, true, acc => acc.reverse :: goSplitAux rest true []
  | c :: rest, _, acc => goSplitAux rest (c = '\n') (c :: acc)

/-- reBatchSeparator.Split(script, -1) on character lists. -/
def goSplitChars (s : List Char) : List (List Char) :=
  goSplitAux s true []

/-- reBatchSeparator.Split(script, -1) on strings (utils.go line 271). -/
def goSplit (s : String) : List String :=
  (goSplitChars s.data).map String.mk

/-- Whether the reBatchSeparator regular expression matches anywhere in
the text: G O newline at a line start. Mirrors the scan of goSplitAux. -/
def containsGoSepAux : List Char → Bool → Bool
  | [], _ => false
  | 'G' :: 'O' :: '\n' :: _, true => true
  | c :: rest, _ => containsGoSepAux rest (c = '\n')

/-- The text contains a batch-separator match. -/
def containsGoSep (s : List Char) : Bool :=
  containsGoSepAux s true

/-- The batchSeparator configuration option read by parseOptions:
config.OrString("batchSeparator", "GO"), i.e. the configured string if
present, else the default "GO". -/
def batchSeparatorOption (configured : Option String) : String :=
  configured.getD "GO"

/-- The statement loop of execScript (utils.go lines 276-294).
execErr is the database collaborator: the error (if any) the connection
reports when a statement is submitted. Returns the list of statements
actually submitted to the connection, each with the error it produced,
together with the error execScript returns. An empty-string statement is
skipped with continue; a non-empty all-whitespace statement makes the
whole function return nil at once; an error whose text contains
"no RowsAffected" is absorbed and the loop continues; any other error is
returned after being logged. -/
def runStmts (execErr : String → Option String) :
    List String → List (String × Option String) × Option String
  | [] => ([], none)
  | st :: rest =>
    if st = "" then runStmts execErr rest
    else if strIsEmpty st = true then ([], none)
    else
      match execErr st with
      | some e =>
        if containsSubstring e "no RowsAffected" = true then
          let r := runStmts execErr rest
          ((st, some e) :: r.1, r.2)
        else ([(st, some e)], some e)
      | none =>
        let r := runStmts execErr rest
        ((st, none) :: r.1, r.2)

/-- execScript (utils.go lines 270-297): split the script on the batch
separator, return nil on an empty statement list, otherwise run the
statement loop. -/
def execScript (execErr : String → Option String) (script : String) :
    List (String × Option String) × Option String :=
  let statements := goSplit script
  if statements.isEmpty = true then ([], none)
  else runStmts execErr statements

/-- The statements of a submission trace that executed without error;
these are the ones whose effects persist on the connection they ran on. -/
def appliedOf (l : List (String × Option String)) : List String :=
  l.filterMap (fun p => match p.2 with | none => some p.1 | some _ => none)

/-- The Migration record (Name, and the three script bodies filled in by
runUpScripts), per the data model; only Name is populated at discovery. -/
structure Migration where
  Name : String
  UpScript : String
  DownScript : String
  NoTransactionScript : String
deriving DecidableEq

/-- A row of the dat__migrations ledger table as inserted by
runUpScripts (utils.go lines 353-364). -/
structure LedgerRow where
  name : String
  up_script : String
  down_script : String
  no_tx_script : String
deriving DecidableEq

/-- Model of the database collaborator state. applied collects, in
order, the statements executed without error on the pool connection
conn: such statements are auto-committed and durable at once. ledger
holds the committed rows of dat__migrations. Work done on a transaction
object is buffered and reaches this state only when the transaction
commits; AutoRollback discards it (a no-op after a successful commit). -/
structure DBState where
  applied : List String
  ledger : List LedgerRow
deriving DecidableEq

/-- The environment of one runUpScripts call: which of the migration
directory files exist (with their text; os.Stat failure = none), the
error the connection reports per submitted statement, and the outcomes
of conn.Begin, the ledger insert on the transaction, and tx.Commit. -/
structure World where
  notxFile : Option String
  downFile : Option String
  upFile : Option String
  execErr : String → Option String
  beginErr : Option String
  insertErr : Option String
  commitErr : Option String

/-- The transactional tail of runUpScripts (utils.go lines 347-370),
entered once conn.Begin has succeeded and tx.AutoRollback is deferred.
The up script is executed through execFile on conn — the pool
connection, not the transaction object tx — so its effects land
durably in applied even while the transaction is open. The ledger
insert runs on tx: it is buffered, reaches ledger only on commit, and
is discarded by the deferred AutoRollback on every error return. The
error of tx.Commit() is discarded by the source, so a failed commit
still returns nil while the buffered insert is lost. -/
def runUpScriptsInTx (w : World) (st : DBState) (m : Migration) :
    DBState × Migration × Option String :=
  match w.upFile with
  | none => (st, m, some "open up.sql: no such file or directory")
  | some u =>
    let r := execScript w.execErr u
    let st1 : DBState := { st with applied := st.applied ++ appliedOf r.1 }
    match r.2 with
    | some e => (st1, m, some e)
    | none =>
      let m1 : Migration := { m with UpScript := u }
      match w.insertErr with
      | some e => (st1, m1, some e)
      | none =>
        match w.commitErr with
        | some _ => (st1, m1, none)
        | none =>
          ({ st1 with ledger := st1.ledger ++
              [{ name := m1.Name, up_script := m1.UpScript,
                 down_script := m1.DownScript,
                 no_tx_script := m1.NoTransactionScript }] }, m1, none)

/-- runUpScripts after the optional notx step (utils.go lines 331-370):
read down.sql if present (stored, never executed), then conn.Begin and
the transactional tail. -/
def runUpScriptsAfterNoTx (w : World) (st : DBState) (m : Migration) :
    DBState × Migration × Option String :=
  let m1 : Migration :=
    match w.downFile with
    | some d => { m with DownScript := d }
    | none => m
  match w.beginErr with
  | some e => (st, m1, some e)
  | none => runUpScriptsInTx w st m1

/-- runUpScripts (utils.go lines 317-371): if notx.sql exists it is
executed first, through execFile on the pool connection conn, before
any transaction is begun; its surviving effects go straight to applied
and are never part of any transaction. On notx failure the function
returns at once (ledger untouched); on success the body is stored as
NoTransactionScript and the transactional part follows. -/
def runUpScripts (w : World) (st : DBState) (m : Migration) :
    DBState × Migration × Option String :=
  match w.notxFile with
  | some s =>
    let r := execScript w.execErr s
    let st1 : DBState := { st with applied := st.applied ++ appliedOf r.1 }
    match r.2 with
    | some e => (st1, m, some e)
    | none => runUpScriptsAfterNoTx w st1 { m with NoTransactionScript := s }
  | none => runUpScriptsAfterNoTx w st m

/-- The index loop of migrationFindIndexOf (utils.go lines 166-176). -/
def migrationFindIndexOfAux (name : String) : List Migration → Int → Int
  | [], _ => -1
  | m :: rest, i => if m.Name = name then i else migrationFindIndexOfAux name rest (i + 1)

/-- migrationFindIndexOf: first index of a migration with the given
Name, -1 when absent. -/
def migrationFindIndexOf (migrations : List Migration) (name : String) : Int :=
  migrationFindIndexOfAux name migrations 0

/-- The logger.Info line of the first loop of verifyMigrationsHistory. -/
def dbAbsentMsg (name : String) : String :=
  "Migration " ++ name ++ " was migrated in database but does not exist in local migrations.\n"

/-- The logger.Info line of the second loop of verifyMigrationsHistory. -/
def localStaleMsg (name lastName : String) : String :=
  "Migration " ++ name ++ " will not be migrated. Its timestamp is younger than last migration " ++ lastName ++ "\n"

/-- The error built by fmt.Errorf at utils.go line 213; its only format
argument is the database name. -/
def outOfSyncMsg (dbName : String) : String :=
  "Local migrations are out of sync with " ++ dbName ++ " database, rename as needed"

/-- Default used only to read the last element of a non-empty list. -/
def emptyMigration : Migration :=
  { Name := "", UpScript := "", DownScript := "", NoTransactionScript := "" }

/-- verifyMigrationsHistory (utils.go lines 183-217). Returns the
logger.Info lines emitted, in order, and the error returned: nil when
dbMigrations is empty or no violation was found, otherwise the generic
out-of-sync error. The first loop logs every ledger migration whose
Name is not found locally; the second logs every local migration whose
Name is below the last ledger Name and not found in the ledger. -/
def verifyMigrationsHistory (dbName : String)
    (localMigrations dbMigrations : List Migration) :
    List String × Option String :=
  if dbMigrations.isEmpty = true then ([], none)
  else
    let logs1 := dbMigrations.filterMap (fun m =>
      if migrationFindIndexOf localMigrations m.Name = -1
      then some (dbAbsentMsg m.Name) else none)
    let lastMigration := dbMigrations.getLastD emptyMigration
    let logs2 := localMigrations.filterMap (fun lm =>
      if lm.Name < lastMigration.Name ∧ migrationFindIndexOf dbMigrations lm.Name = -1
      then some (localStaleMsg lm.Name lastMigration.Name) else none)
    let logs := logs1 ++ logs2
    if logs.isEmpty = true then (logs, none)
    else (logs, some (outOfSyncMsg dbName))

/-- The scan loop of extractLineColumn (utils.go lines 447-473), with
the Go int position kept as an Int and the byte index i as a Nat;
script[i] is s.getD i. The loop runs while i < max and i < position;
a carriage return followed by a newline is consumed as one break, and
the line increment is suppressed when the consumed break character is
the last character of the script (the i < max-1 checks). -/
def elcLoop (s : List Char) (max : Nat) (position : Int)
    (i line column : Nat) : Nat × Nat :=
  if h : i < max ∧ (i : Int) < position then
    if s.getD i ' ' = '\r' then
      if i + 1 < max ∧ s.getD (i + 1) ' ' = '\n' then
        if i + 1 < max - 1 then elcLoop s max position (i + 2) (line + 1) 0
        else elcLoop s max position (i + 2) line column
      else
        if i < max - 1 then elcLoop s max position (i + 1) (line + 1) 0
        else elcLoop s max position (i + 1) line column
    else if s.getD i ' ' = '\n' then
      if i < max - 1 then elcLoop s max position (i + 1) (line + 1) 0
      else elcLoop s max position (i + 1) line column
    else elcLoop s max position (i + 1) line (column + 1)
  else (line, column)
termination_by max - i
decreasing_by all_goals omega

/-- The increment position++ of extractLineColumn operates on a Go int
(64-bit): two's-complement wrap-around addition of one, so the int64
maximum wraps to the int64 minimum. -/
def int64inc (v : Int) : Int :=
  (v + 1 + 2 ^ 63) % 2 ^ 64 - 2 ^ 63

/-- extractLineColumn (utils.go lines 441-475): parse pos with
strconv.Atoi; on a parse error return (0, 0) and a non-nil error (the
Bool true); otherwise increment the position with the wrapping 64-bit
increment and run the scan from line 1, column 0, returning a nil error
(the Bool false). -/
def extractLineColumn (script : List Char) (pos : String) : Nat × Nat × Bool :=
  match goAtoi pos with
  | none => (0, 0, true)
  | some position =>
    let r := elcLoop script script.length (int64inc position) 0 1 0
    (r.1, r.2, false)

/-- Modelled from the claim wording for the error locator: scan the
script character by character from the start with line 1 and column 0,
incrementing the column per non-newline character, treating a carriage
return plus newline pair as a single line break, incrementing the line
and resetting the column on each line break except when the break sits
at the very last character of the script, and stopping once the running
index reaches the target offset (remaining counts how far the target
still is) or the script ends. -/
def locAux : List Char → Int → Nat → Nat → Nat × Nat
  | [], _, line, column => (line, column)
  | [c], remaining, line, column =>
    if remaining ≤ 0 then (line, column)
    else if c = '\r' then (line, column)
    else if c = '\n' then (line, column)
    else (line, column + 1)
  | c :: c2 :: rest2, remaining, line, column =>
    if remaining ≤ 0 then (line, column)
    else if c = '\r' then
      if c2 = '\n' then
        if rest2 = [] then (line, column)
        else locAux rest2 (remaining - 2) (line + 1) 0
      else locAux (c2 :: rest2) (remaining - 1) (line + 1) 0
    else if c = '\n' then locAux (c2 :: rest2) (remaining - 1) (line + 1) 0
    else locAux (c2 :: rest2) (remaining - 1) line (column + 1)

/-- The claim's locate: target offset is the parsed offset plus one,
with an unbounded increment as the claim words it. -/
def locateSpec (s : List Char) (offset : Int) : Nat × Nat :=
  locAux s (offset + 1) 1 0

/-- Modelled from the amended claim: the target offset is the parsed
offset incremented with the wrapping 64-bit increment the code uses. -/
def locateWrap (s : List Char) (offset : Int) : Nat × Nat :=
  locAux s (int64inc offset) 1 0

/-- A migration record as discovered, with only the Name populated. -/
def m0 : Migration :=
  { Name := "202001010000-init", UpScript := "", DownScript := "",
    NoTransactionScript := "" }

/-- A run whose up script has a successful first statement and a failing
second statement, everything else healthy. -/
def w1 : World :=
  { notxFile := none, downFile := none,
    upFile := some "create table t1 (a int);\nGO\nboom;\n",
    execErr := fun s => if s = "boom;\n" then some "syntax error at boom" else none,
    beginErr := none, insertErr := none, commitErr := none }

/-- A run with a successful notx script and a failing up script. -/
def w3 : World :=
  { notxFile := some "create index concurrently idx1 on t1 (a);\n",
    downFile := none, upFile := some "boom;\n",
    execErr := fun s => if s = "boom;\n" then some "syntax error at boom" else none,
    beginErr := none, insertErr := none, commitErr := none }

/-- A run where everything succeeds except the final tx.Commit. -/
def w4 : World :=
  { notxFile := none, downFile := none, upFile := some "select 1;\n",
    execErr := fun _ => none, beginErr := none, insertErr := none,
    commitErr := some "commit failed: connection lost" }

/-- C1: the claim says the up script runs inside the transaction and a
mid-script failure undoes the effects of earlier up statements. The code
passes conn, not tx, to execFile (utils.go line 347), so at this failing
input the first statement of up.sql stays applied after the rollback:
the run errors, no ledger row exists, but applied is not empty. -/
theorem C1_up_failure_first_statement_survives :
    runUpScripts w1 { applied := [], ledger := [] } m0 =
      ({ applied := ["create table t1 (a int);\n"], ledger := [] }, m0,
        some "syntax error at boom") := by decide

/-- C2 counterexample: the splitter produces the non-empty segment
after a whitespace-only segment, yet execScript submits nothing at all
and returns nil, so that segment is not executed as the claim states. -/
theorem C2_whitespace_segment_stops_cex :
    "select 1;\n" ∈ goSplit "GO\n \nGO\nselect 1;\n" ∧
    execScript (fun _ => none) "GO\n \nGO\nselect 1;\n" = ([], none) := by decide

/-- C2 amended: an empty-string segment is skipped and execution
continues with the remaining segments, but a non-empty segment that
contains only whitespace makes the statement loop return success at
once, executing none of the remaining segments. -/
theorem C2_segment_skip (e : String → Option String) (l : List String) (ws : String) :
    runStmts e ("" :: l) = runStmts e l ∧
    (ws ≠ "" → strIsEmpty ws = true → runStmts e (ws :: l) = ([], none)) := by
  constructor
  · simp [runStmts]
  · intro h1 h2
    simp [runStmts, h1, h2]

/-- C2 witness: a whitespace-only segment ends execution successfully
even with a real statement still pending. -/
theorem C2_segment_skip_w :
    runStmts (fun _ => none) (" \t" :: ["select 2;\n"]) = ([], none) :=
  (C2_segment_skip (fun _ => none) ["select 2;\n"] " \t").2 (by decide) (by decide)

/-- C4 counterexample: with everything healthy except tx.Commit, the
runner returns nil and the ledger stays empty: the commit failure is
not propagated and the migration is reported successful. -/
theorem C4_commit_error_swallowed_cex :
    w4.commitErr = some "commit failed: connection lost" ∧
    runUpScripts w4 { applied := [], ledger := [] } m0 =
      ({ applied := ["select 1;\n"], ledger := [] },
        { m0 with UpScript := "select 1;\n" }, none) := by
  exact ⟨rfl, by decide⟩

/-- C8 counterexample: the configured batch separator option can be a
string other than GO, but splitting ignores it (the code splits only on
the hardcoded GO), and a GO alone on the final line without a trailing
newline, although followed by line end, is not recognized. -/
theorem C8_separator_cex :
    batchSeparatorOption (some ";;") = ";;" ∧
    goSplit ";;\nB;" = [";;\nB;"] ∧
    goSplit "A;\nGO" = ["A;\nGO"] := by decide

/-- C8 amended: the configuration option defaults to GO, and script
execution splits on the hardcoded token GO exactly when it appears at
the start of a line followed immediately by a newline character: not
mid-line, not with trailing content on its line, and not at the very
end of the script without a newline. -/
theorem C8_separator_behavior :
    batchSeparatorOption none = "GO" ∧
    goSplit "A;\nGO\nB;" = ["A;\n", "B;"] ∧
    goSplit "A;GO\nB;" = ["A;GO\nB;"] ∧
    goSplit "A;\nGO B;\n" = ["A;\nGO B;\n"] ∧
    goSplit "A;\nGOO\nB;" = ["A;\nGOO\nB;"] ∧
    goSplit "A;\nGO" = ["A;\nGO"] := by decide

/-- C5 counterexample: the ledger names a migration absent locally;
verify fails, but the error it returns is the generic out-of-sync
message, which does not contain the offending migration name. -/
theorem C5_error_lacks_names_cex :
    (verifyMigrationsHistory "mydb" []
        [{ Name := "202001010000-aaa", UpScript := "", DownScript := "",
           NoTransactionScript := "" }]).2 =
      some "Local migrations are out of sync with mydb database, rename as needed" ∧
    containsSubstring
      "Local migrations are out of sync with mydb database, rename as needed"
      "202001010000-aaa" = false := by decide

/-- Whatever happens in the transactional tail, the statements already
durable on the pool connection are preserved: the result state's applied
list extends the entry state's. -/
theorem inTx_applied_extends (w : World) (st : DBState) (m : Migration) :
    st.applied <+: (runUpScriptsInTx w st m).1.applied := by
  unfold runUpScriptsInTx
  cases hu : w.upFile with
  | none => simp
  | some u =>
    cases hr : (execScript w.execErr u).2 with
    | some e => simp [hr]
    | none =>
      cases hi : w.insertErr with
      | some e => simp [hr, hi]
      | none =>
        cases hc : w.commitErr with
        | some e => simp [hr, hi, hc]
        | none => simp [hr, hi, hc]

/-- If the transactional tail returns an error, the ledger is unchanged:
the insert was buffered in the transaction and AutoRollback discards it. -/
theorem inTx_ledger_of_err (w : World) (st : DBState) (m : Migration) (e : String)
    (h : (runUpScriptsInTx w st m).2.2 = some e) :
    (runUpScriptsInTx w st m).1.ledger = st.ledger := by
  unfold runUpScriptsInTx at h ⊢
  cases hu : w.upFile with
  | none => simp [hu]
  | some u =>
    cases hr : (execScript w.execErr u).2 with
    | some e2 => simp [hu, hr]
    | none =>
      cases hi : w.insertErr with
      | some e2 => simp [hu, hr, hi]
      | none =>
        cases hc : w.commitErr with
        | some e2 => simp [hu, hr, hi, hc]
        | none => simp [hu, hr, hi, hc] at h

/-- Applied statements are preserved through the down-read, begin, and
transactional phases. -/
theorem afterNoTx_applied_extends (w : World) (st : DBState) (m : Migration) :
    st.applied <+: (runUpScriptsAfterNoTx w st m).1.applied := by
  unfold runUpScriptsAfterNoTx
  cases hb : w.beginErr with
  | some e => cases hd : w.downFile <;> simp
  | none => cases hd : w.downFile <;> simpa using inTx_applied_extends w st _

/-- A failing run never changes the ledger once the notx phase is done. -/
theorem afterNoTx_ledger_of_err (w : World) (st : DBState) (m : Migration) (e : String)
    (h : (runUpScriptsAfterNoTx w st m).2.2 = some e) :
    (runUpScriptsAfterNoTx w st m).1.ledger = st.ledger := by
  unfold runUpScriptsAfterNoTx at h ⊢
  cases hb : w.beginErr with
  | some e2 => cases hd : w.downFile <;> simp
  | none =>
    rw [hb] at h
    cases hd : w.downFile with
    | some d =>
      rw [hd] at h
      simpa using inTx_ledger_of_err w st _ e h
    | none =>
      rw [hd] at h
      simpa using inTx_ledger_of_err w st _ e h

/-- When tx.Commit is doomed to fail, the transactional tail never
persists a ledger row, whatever else happens: the buffered insert is
lost and the swallowed commit error still leaves the ledger unchanged. -/
theorem inTx_ledger_of_commitErr (w : World) (st : DBState) (m : Migration) (c : String)
    (hc : w.commitErr = some c) :
    (runUpScriptsInTx w st m).1.ledger = st.ledger := by
  unfold runUpScriptsInTx
  cases hu : w.upFile with
  | none => simp
  | some u =>
    cases hr : (execScript w.execErr u).2 with
    | some e => simp [hr]
    | none =>
      cases hi : w.insertErr with
      | some e => simp [hr, hi]
      | none => simp [hr, hi, hc]

/-- A failing commit leaves the ledger unchanged through the down-read,
begin, and transactional phases. -/
theorem afterNoTx_ledger_of_commitErr (w : World) (st : DBState) (m : Migration) (c : String)
    (hc : w.commitErr = some c) :
    (runUpScriptsAfterNoTx w st m).1.ledger = st.ledger := by
  unfold runUpScriptsAfterNoTx
  cases hb : w.beginErr with
  | some e => cases hd : w.downFile <;> simp
  | none => cases hd : w.downFile <;> simpa using inTx_ledger_of_commitErr w st _ c hc

/-- C3: a migration with a notx script runs it before any transaction is
begun, and no failure of the later transactional step (up-script
execution, ledger insert, or commit, the latter being the swallowed
tx.Commit error) rolls its effects back: whenever the notx script
succeeded and the run then either returned an error or suffered a
commit failure, the notx effects (appended durably to the connection
before the transaction existed) are still a prefix of the final applied
list, and the ledger is exactly as it was before the run. -/
theorem C3_notx_durable (w : World) (st : DBState) (m : Migration) (s : String)
    (hn : w.notxFile = some s)
    (hok : (execScript w.execErr s).2 = none)
    (hfail : (∃ e, (runUpScripts w st m).2.2 = some e) ∨ w.commitErr ≠ none) :
    (st.applied ++ appliedOf (execScript w.execErr s).1) <+:
      (runUpScripts w st m).1.applied ∧
    (runUpScripts w st m).1.ledger = st.ledger := by
  have hrw : runUpScripts w st m =
      runUpScriptsAfterNoTx w
        { st with applied := st.applied ++ appliedOf (execScript w.execErr s).1 }
        { m with NoTransactionScript := s } := by
    unfold runUpScripts
    rw [hn]
    simp [hok]
  rw [hrw] at hfail ⊢
  refine ⟨?_, ?_⟩
  · simpa using afterNoTx_applied_extends w
      { st with applied := st.applied ++ appliedOf (execScript w.execErr s).1 }
      { m with NoTransactionScript := s }
  · rcases hfail with ⟨e, he⟩ | hc
    · simpa using afterNoTx_ledger_of_err w
        { st with applied := st.applied ++ appliedOf (execScript w.execErr s).1 }
        { m with NoTransactionScript := s } e he
    · obtain ⟨c, hc2⟩ : ∃ c, w.commitErr = some c := by
        cases hcc : w.commitErr with
        | none => exact absurd hcc hc
        | some c => exact ⟨c, rfl⟩
      simpa using afterNoTx_ledger_of_commitErr w
        { st with applied := st.applied ++ appliedOf (execScript w.execErr s).1 }
        { m with NoTransactionScript := s } c hc2

/-- C3 witness: concrete run where the notx index build succeeds and the
up script fails; the notx effect survives and the ledger is untouched. -/
theorem C3_notx_durable_w :
    (({ applied := [], ledger := [] } : DBState).applied ++
        appliedOf (execScript w3.execErr "create index concurrently idx1 on t1 (a);\n").1) <+:
      (runUpScripts w3 { applied := [], ledger := [] } m0).1.applied ∧
    (runUpScripts w3 { applied := [], ledger := [] } m0).1.ledger =
      ({ applied := [], ledger := [] } : DBState).ledger :=
  C3_notx_durable w3 { applied := [], ledger := [] } m0
    "create index concurrently idx1 on t1 (a);\n"
    rfl (by decide) (Or.inl ⟨"syntax error at boom", by decide⟩)

/-- C4 amended: when tx.Commit fails after the up script executed and
the ledger insert succeeded, the commit error is ignored: the runner
returns nil (the migration is reported successful) while the buffered
ledger row is lost, leaving the ledger unchanged. -/
theorem C4_commit_error_ignored (w : World) (st : DBState) (m : Migration) (u c : String)
    (hn : w.notxFile = none ∨
      ∃ s, w.notxFile = some s ∧ (execScript w.execErr s).2 = none)
    (hb : w.beginErr = none)
    (hu : w.upFile = some u)
    (hup : (execScript w.execErr u).2 = none)
    (hi : w.insertErr = none)
    (hc : w.commitErr = some c) :
    (runUpScripts w st m).2.2 = none ∧
    (runUpScripts w st m).1.ledger = st.ledger := by
  have hin : ∀ (st' : DBState) (m' : Migration),
      (runUpScriptsInTx w st' m').2.2 = none ∧
      (runUpScriptsInTx w st' m').1.ledger = st'.ledger := by
    intro st' m'
    unfold runUpScriptsInTx
    simp [hu, hup, hi, hc]
  have hafter : ∀ (st' : DBState) (m' : Migration),
      (runUpScriptsAfterNoTx w st' m').2.2 = none ∧
      (runUpScriptsAfterNoTx w st' m').1.ledger = st'.ledger := by
    intro st' m'
    unfold runUpScriptsAfterNoTx
    cases hd : w.downFile with
    | some d => simpa [hb] using hin st' _
    | none => simpa [hb] using hin st' _
  rcases hn with h | ⟨s, hs, hok⟩
  · unfold runUpScripts
    rw [h]
    exact hafter st m
  · unfold runUpScripts
    rw [hs]
    simp only [hok]
    exact hafter _ _

/-- C4 witness: concrete run where only the commit fails; the runner
reports success and the ledger is unchanged. -/
theorem C4_commit_error_ignored_w :
    (runUpScripts w4 { applied := [], ledger := [] } m0).2.2 = none ∧
    (runUpScripts w4 { applied := [], ledger := [] } m0).1.ledger =
      ({ applied := [], ledger := [] } : DBState).ledger :=
  C4_commit_error_ignored w4 { applied := [], ledger := [] } m0
    "select 1;\n" "commit failed: connection lost"
    (Or.inl rfl) rfl rfl (by decide) rfl rfl

/-- A name that no migration of the list carries is never found: the
index loop returns -1 from any starting index. -/
theorem migrationFindIndexOfAux_eq_neg_one (name : String) :
    ∀ (l : List Migration) (i : Int), (∀ x ∈ l, x.Name ≠ name) →
      migrationFindIndexOfAux name l i = -1 := by
  intro l
  induction l with
  | nil => intro i _; rfl
  | cons x xs ih =>
    intro i h
    unfold migrationFindIndexOfAux
    rw [if_neg (h x (by simp))]
    exact ih (i + 1) (fun y hy => h y (by simp [hy]))

/-- C5 amended: for ascending-sorted inputs with a non-empty ledger, a
ledger migration whose Name is absent locally makes verify fail, and
verify logs a line naming that migration; the returned error itself is
the generic out-of-sync message naming only the database. -/
theorem C5_verify_absent_logged (dbName : String)
    (localMigrations dbMigrations : List Migration) (m : Migration)
    (hsl : List.Pairwise (fun a b => a.Name < b.Name) localMigrations)
    (hsd : List.Pairwise (fun a b => a.Name < b.Name) dbMigrations)
    (hm : m ∈ dbMigrations)
    (habs : ∀ lm ∈ localMigrations, lm.Name ≠ m.Name) :
    (verifyMigrationsHistory dbName localMigrations dbMigrations).2 =
      some (outOfSyncMsg dbName) ∧
    dbAbsentMsg m.Name ∈ (verifyMigrationsHistory dbName localMigrations dbMigrations).1 := by
  have hidx : migrationFindIndexOf localMigrations m.Name = -1 :=
    migrationFindIndexOfAux_eq_neg_one m.Name localMigrations 0 habs
  have hne : dbMigrations.isEmpty = false := by
    cases dbMigrations with
    | nil => simp at hm
    | cons a as => rfl
  have hmem1 : dbAbsentMsg m.Name ∈ dbMigrations.filterMap (fun mm =>
      if migrationFindIndexOf localMigrations mm.Name = -1
      then some (dbAbsentMsg mm.Name) else none) :=
    List.mem_filterMap.mpr ⟨m, hm, by rw [if_pos hidx]⟩
  unfold verifyMigrationsHistory
  rw [hne]
  simp only [Bool.false_eq_true, if_false]
  have hmem : dbAbsentMsg m.Name ∈
      (dbMigrations.filterMap (fun mm =>
        if migrationFindIndexOf localMigrations mm.Name = -1
        then some (dbAbsentMsg mm.Name) else none)) ++
      (localMigrations.filterMap (fun lm =>
        if lm.Name < (dbMigrations.getLastD emptyMigration).Name ∧
            migrationFindIndexOf dbMigrations lm.Name = -1
        then some (localStaleMsg lm.Name (dbMigrations.getLastD emptyMigration).Name)
        else none)) :=
    List.mem_append_left _ hmem1
  have hlne : ((dbMigrations.filterMap (fun mm =>
      if migrationFindIndexOf localMigrations mm.Name = -1
      then some (dbAbsentMsg mm.Name) else none)) ++
      (localMigrations.filterMap (fun lm =>
        if lm.Name < (dbMigrations.getLastD emptyMigration).Name ∧
            migrationFindIndexOf dbMigrations lm.Name = -1
        then some (localStaleMsg lm.Name (dbMigrations.getLastD emptyMigration).Name)
        else none))).isEmpty = false := by
    rw [List.isEmpty_eq_false]
    exact List.ne_nil_of_mem hmem
  rw [hlne]
  simp only [Bool.false_eq_true, if_false]
  exact ⟨trivial, hmem⟩

/-- C5 amended witness at a concrete instance: a ledger-only migration
is logged by name and the generic error is returned. -/
theorem C5_verify_absent_logged_w :
    (verifyMigrationsHistory "mydb" []
        [{ Name := "202001010000-aaa", UpScript := "", DownScript := "",
           NoTransactionScript := "" }]).2 = some (outOfSyncMsg "mydb") ∧
    dbAbsentMsg "202001010000-aaa" ∈
      (verifyMigrationsHistory "mydb" []
        [{ Name := "202001010000-aaa", UpScript := "", DownScript := "",
           NoTransactionScript := "" }]).1 :=
  C5_verify_absent_logged "mydb" []
    [{ Name := "202001010000-aaa", UpScript := "", DownScript := "",
       NoTransactionScript := "" }]
    { Name := "202001010000-aaa", UpScript := "", DownScript := "",
      NoTransactionScript := "" }
    (by simp) (by simp) (by simp) (by simp)

/-- C6: for ascending-sorted inputs with a non-empty ledger, a local
migration whose Name is below the last ledger Name and absent from the
ledger makes verify return an error; and with an empty ledger verify
succeeds for every local list. -/
theorem C6_verify_stale_local (dbName : String)
    (localMigrations dbMigrations : List Migration) (m : Migration)
    (hsl : List.Pairwise (fun a b => a.Name < b.Name) localMigrations)
    (hsd : List.Pairwise (fun a b => a.Name < b.Name) dbMigrations)
    (hne : dbMigrations ≠ [])
    (hm : m ∈ localMigrations)
    (hlt : m.Name < (dbMigrations.getLastD emptyMigration).Name)
    (habs : ∀ dm ∈ dbMigrations, dm.Name ≠ m.Name) :
    ((verifyMigrationsHistory dbName localMigrations dbMigrations).2).isSome = true ∧
    ∀ l2 : List Migration, (verifyMigrationsHistory dbName l2 []).2 = none := by
  refine ⟨?_, fun l2 => rfl⟩
  have hidx : migrationFindIndexOf dbMigrations m.Name = -1 :=
    migrationFindIndexOfAux_eq_neg_one m.Name dbMigrations 0 habs
  have hneb : dbMigrations.isEmpty = false := by
    cases dbMigrations with
    | nil => exact absurd rfl hne
    | cons a as => rfl
  have hmem2 : localStaleMsg m.Name (dbMigrations.getLastD emptyMigration).Name ∈
      localMigrations.filterMap (fun lm =>
        if lm.Name < (dbMigrations.getLastD emptyMigration).Name ∧
            migrationFindIndexOf dbMigrations lm.Name = -1
        then some (localStaleMsg lm.Name (dbMigrations.getLastD emptyMigration).Name)
        else none) :=
    List.mem_filterMap.mpr ⟨m, hm, by rw [if_pos ⟨hlt, hidx⟩]⟩
  have hmem : localStaleMsg m.Name (dbMigrations.getLastD emptyMigration).Name ∈
      (dbMigrations.filterMap (fun mm =>
        if migrationFindIndexOf localMigrations mm.Name = -1
        then some (dbAbsentMsg mm.Name) else none)) ++
      (localMigrations.filterMap (fun lm =>
        if lm.Name < (dbMigrations.getLastD emptyMigration).Name ∧
            migrationFindIndexOf dbMigrations lm.Name = -1
        then some (localStaleMsg lm.Name (dbMigrations.getLastD emptyMigration).Name)
        else none)) :=
    List.mem_append_right _ hmem2
  have hlne : ((dbMigrations.filterMap (fun mm =>
      if migrationFindIndexOf localMigrations mm.Name = -1
      then some (dbAbsentMsg mm.Name) else none)) ++
      (localMigrations.filterMap (fun lm =>
        if lm.Name < (dbMigrations.getLastD emptyMigration).Name ∧
            migrationFindIndexOf dbMigrations lm.Name = -1
        then some (localStaleMsg lm.Name (dbMigrations.getLastD emptyMigration).Name)
        else none))).isEmpty = false := by
    rw [List.isEmpty_eq_false]
    exact List.ne_nil_of_mem hmem
  unfold verifyMigrationsHistory
  rw [hneb]
  simp only [Bool.false_eq_true, if_false]
  rw [hlne]
  simp only [Bool.false_eq_true, if_false]
  rfl

/-- C6 witness: a local migration older than the last applied one and
missing from the ledger makes verify fail; empty ledgers verify. -/
theorem C6_verify_stale_local_w :
    ((verifyMigrationsHistory "mydb"
        [{ Name := "202001010000-aaa", UpScript := "", DownScript := "",
           NoTransactionScript := "" }]
        [{ Name := "202002010000-bbb", UpScript := "", DownScript := "",
           NoTransactionScript := "" }]).2).isSome = true ∧
    ∀ l2 : List Migration, (verifyMigrationsHistory "mydb" l2 []).2 = none :=
  C6_verify_stale_local "mydb"
    [{ Name := "202001010000-aaa", UpScript := "", DownScript := "",
       NoTransactionScript := "" }]
    [{ Name := "202002010000-bbb", UpScript := "", DownScript := "",
       NoTransactionScript := "" }]
    { Name := "202001010000-aaa", UpScript := "", DownScript := "",
      NoTransactionScript := "" }
    (by simp) (by simp) (by simp) (by simp) (by simp; decide) (by decide)

/-- On a text with no batch-separator match, the split loop only ever
takes its fall-through step, so it returns the single segment formed by
the pending accumulator followed by the rest of the text. -/
theorem goSplitAux_no_sep (l : List Char) (b : Bool) (acc : List Char)
    (h : containsGoSepAux l b = false) :
    goSplitAux l b acc = [acc.reverse ++ l] := by
  induction l, b, acc using goSplitAux.induct with
  | case1 b acc => simp [goSplitAux]
  | case2 rest acc ih => simp [containsGoSepAux] at h
  | case3 c rest b acc hne ih =>
    rw [goSplitAux.eq_3 b acc c rest hne]
    rw [containsGoSepAux.eq_3 b c rest hne] at h
    rw [ih h]
    simp

/-- C7: splitting the two-batch script on GO yields exactly the two
segments in order, and for every script with no separator match the
split returns the whole input unchanged as the sole segment. -/
theorem C7_split_batches :
    goSplit "A;\nGO\nB;\n" = ["A;\n", "B;\n"] ∧
    ∀ s : String, containsGoSep s.data = false → goSplit s = [s] := by
  refine ⟨by decide, ?_⟩
  intro s h
  unfold goSplit goSplitChars
  rw [goSplitAux_no_sep s.data true [] h]
  rfl

/-- C7 witness: a script with no separator splits to itself. -/
theorem C7_split_batches_w : goSplit "A;\n" = ["A;\n"] :=
  C7_split_batches.2 "A;\n" (by decide)

/-- The character at the dropped head position. -/
theorem getD_of_drop : ∀ (i : Nat) (l : List Char) (c : Char) (t : List Char),
    l.drop i = c :: t → l.getD i ' ' = c := by
  intro i
  induction i with
  | zero =>
    intro l c t h
    simp only [List.drop_zero] at h
    simp [h]
  | succ n ih =>
    intro l c t h
    cases l with
    | nil => simp at h
    | cons x xs =>
      simp only [List.drop_succ_cons] at h
      simpa using ih xs c t h

/-- Dropping one more character drops the head of the suffix. -/
theorem drop_of_drop : ∀ (i : Nat) (l : List Char) (c : Char) (t : List Char),
    l.drop i = c :: t → l.drop (i + 1) = t := by
  intro i
  induction i with
  | zero =>
    intro l c t h
    simp only [List.drop_zero] at h
    subst h
    simp
  | succ n ih =>
    intro l c t h
    cases l with
    | nil => simp at h
    | cons x xs =>
      simp only [List.drop_succ_cons] at h
      simpa [List.drop_succ_cons] using ih xs c t h

/-- A non-empty suffix means the index is in range. -/
theorem lt_length_of_drop (i : Nat) (l : List Char) (c : Char) (t : List Char)
    (h : l.drop i = c :: t) : i < l.length := by
  by_contra hc
  push_neg at hc
  rw [List.drop_eq_nil_of_le hc] at h
  exact absurd h (by simp)

/-- An empty suffix bounds the length. -/
theorem length_le_of_drop_nil (i : Nat) (l : List Char)
    (h : l.drop i = []) : l.length ≤ i := by
  have := congrArg List.length h
  simp only [List.length_drop, List.length_nil] at this
  omega

/-- Once the target offset is reached the claimed scan stops. -/
theorem locAux_stop (l : List Char) (remaining : Int) (line column : Nat)
    (h : remaining ≤ 0) : locAux l remaining line column = (line, column) := by
  cases l with
  | nil => rfl
  | cons c rest =>
    cases rest with
    | nil => simp [locAux, h]
    | cons c2 rest2 => simp [locAux, h]

/-- The index loop of extractLineColumn agrees with the claimed
character-by-character scan: running the loop from index i computes the
same pair as scanning the suffix of the script at i with the remaining
distance to the target offset. -/
theorem elcLoop_eq_locAux (s : List Char) (position : Int) :
    ∀ (n : Nat) (rest : List Char) (i line column : Nat),
      rest.length ≤ n → s.drop i = rest →
      elcLoop s s.length position i line column =
        locAux rest (position - (i : Int)) line column := by
  intro n
  induction n with
  | zero =>
    intro rest i line column hn hdrop
    have hrest : rest = [] := List.eq_nil_of_length_eq_zero (Nat.le_zero.mp hn)
    subst hrest
    have hlen : s.length ≤ i := length_le_of_drop_nil i s hdrop
    unfold elcLoop
    rw [dif_neg (by omega : ¬(i < s.length ∧ (i : Int) < position))]
    rfl
  | succ k ih =>
    intro rest i line column hn hdrop
    cases rest with
    | nil =>
      have hlen : s.length ≤ i := length_le_of_drop_nil i s hdrop
      unfold elcLoop
      rw [dif_neg (by omega : ¬(i < s.length ∧ (i : Int) < position))]
      rfl
    | cons c rest1 =>
      have hi : i < s.length := lt_length_of_drop i s c rest1 hdrop
      have hci : s.getD i ' ' = c := getD_of_drop i s c rest1 hdrop
      have hdrop1 : s.drop (i + 1) = rest1 := drop_of_drop i s c rest1 hdrop
      by_cases hp : (i : Int) < position
      case neg =>
        unfold elcLoop
        rw [dif_neg (fun hh => hp hh.2)]
        rw [locAux_stop (c :: rest1) (position - (i : Int)) line column (by omega)]
      case pos =>
        unfold elcLoop
        rw [dif_pos ⟨hi, hp⟩, hci]
        by_cases hcr : c = '\r'
        · subst hcr
          rw [if_pos rfl]
          cases rest1 with
          | nil =>
            have hlen1 : s.length ≤ i + 1 := length_le_of_drop_nil (i + 1) s hdrop1
            rw [if_neg (fun hh => absurd hh.1 (by omega : ¬(i + 1 < s.length)))]
            rw [if_neg (by omega : ¬(i < s.length - 1))]
            rw [ih [] (i + 1) line column (by simp) hdrop1]
            simp only [locAux]
            rw [if_neg (by omega : ¬(position - (i : Int) ≤ 0))]
            simp
          | cons c2 rest2 =>
            have hgd2 : s.getD (i + 1) ' ' = c2 := getD_of_drop (i + 1) s c2 rest2 hdrop1
            have hi1 : i + 1 < s.length := lt_length_of_drop (i + 1) s c2 rest2 hdrop1
            have hdrop2 : s.drop (i + 2) = rest2 := drop_of_drop (i + 1) s c2 rest2 hdrop1
            by_cases hc2 : c2 = '\n'
            · subst hc2
              rw [if_pos ⟨hi1, hgd2⟩]
              cases rest2 with
              | nil =>
                have hlen2 : s.length ≤ i + 2 := length_le_of_drop_nil (i + 2) s hdrop2
                rw [if_neg (by omega : ¬(i + 1 < s.length - 1))]
                rw [ih [] (i + 2) line column (by simp) hdrop2]
                simp only [locAux]
                rw [if_neg (by omega : ¬(position - (i : Int) ≤ 0))]
                simp
              | cons d rest3 =>
                have hi2 : i + 2 < s.length := lt_length_of_drop (i + 2) s d rest3 hdrop2
                rw [if_pos (by omega : i + 1 < s.length - 1)]
                have hlen3 : (d :: rest3).length ≤ k := by
                  simp only [List.length_cons] at hn ⊢
                  omega
                rw [ih (d :: rest3) (i + 2) (line + 1) 0 hlen3 hdrop2]
                have hRHS : locAux ('\r' :: '\n' :: d :: rest3) (position - (i : Int)) line column =
                    locAux (d :: rest3) (position - (i : Int) - 2) (line + 1) 0 := by
                  simp only [locAux]
                  rw [if_neg (by omega : ¬(position - (i : Int) ≤ 0))]
                  simp
                rw [hRHS]
                congr 1
                push_cast
                ring
            · rw [if_neg (fun hh => hc2 (hgd2.symm.trans hh.2))]
              rw [if_pos (by omega : i < s.length - 1)]
              have hlen4 : (c2 :: rest2).length ≤ k := by
                simp only [List.length_cons] at hn ⊢
                omega
              rw [ih (c2 :: rest2) (i + 1) (line + 1) 0 hlen4 hdrop1]
              have hRHS : locAux ('\r' :: c2 :: rest2) (position - (i : Int)) line column =
                  locAux (c2 :: rest2) (position - (i : Int) - 1) (line + 1) 0 := by
                simp only [locAux]
                rw [if_neg (by omega : ¬(position - (i : Int) ≤ 0))]
                simp [hc2]
              rw [hRHS]
              congr 1
              push_cast
              ring
        · rw [if_neg hcr]
          by_cases hcn : c = '\n'
          · subst hcn
            rw [if_pos rfl]
            cases rest1 with
            | nil =>
              have hlen1 : s.length ≤ i + 1 := length_le_of_drop_nil (i + 1) s hdrop1
              rw [if_neg (by omega : ¬(i < s.length - 1))]
              rw [ih [] (i + 1) line column (by simp) hdrop1]
              simp only [locAux]
              rw [if_neg (by omega : ¬(position - (i : Int) ≤ 0))]
              simp
            | cons c2 rest2 =>
              have hi1 : i + 1 < s.length := lt_length_of_drop (i + 1) s c2 rest2 hdrop1
              rw [if_pos (by omega : i < s.length - 1)]
              have hlen4 : (c2 :: rest2).length ≤ k := by
                simp only [List.length_cons] at hn ⊢
                omega
              rw [ih (c2 :: rest2) (i + 1) (line + 1) 0 hlen4 hdrop1]
              have hRHS : locAux ('\n' :: c2 :: rest2) (position - (i : Int)) line column =
                  locAux (c2 :: rest2) (position - (i : Int) - 1) (line + 1) 0 := by
                simp only [locAux]
                rw [if_neg (by omega : ¬(position - (i : Int) ≤ 0))]
                simp
              rw [hRHS]
              congr 1
              push_cast
              ring
          · rw [if_neg hcn]
            cases rest1 with
            | nil =>
              rw [ih [] (i + 1) line (column + 1) (by simp) hdrop1]
              simp only [locAux]
              rw [if_neg (by omega : ¬(position - (i : Int) ≤ 0))]
              simp [hcr, hcn]
            | cons c2 rest2 =>
              have hlen4 : (c2 :: rest2).length ≤ k := by
                simp only [List.length_cons] at hn ⊢
                omega
              rw [ih (c2 :: rest2) (i + 1) line (column + 1) hlen4 hdrop1]
              have hRHS : locAux (c :: c2 :: rest2) (position - (i : Int)) line column =
                  locAux (c2 :: rest2) (position - (i : Int) - 1) line (column + 1) := by
                simp only [locAux]
                rw [if_neg (by omega : ¬(position - (i : Int) ≤ 0))]
                simp [hcr, hcn]
              rw [hRHS]
              congr 1
              push_cast
              ring

/-- A successful strconv.Atoi always yields a value in int64 range. -/
theorem goAtoi_bounds (pos : String) (n : Int) (h : goAtoi pos = some n) :
    -(2 ^ 63) ≤ n ∧ n ≤ 2 ^ 63 - 1 := by
  have key : ∀ v : Int,
      (if v < -(2 ^ 63) ∨ 2 ^ 63 - 1 < v then none else some v) = some n →
      -(2 ^ 63) ≤ n ∧ n ≤ 2 ^ 63 - 1 := by
    intro v hv
    split at hv
    · exact absurd hv (by simp)
    · rename_i hcond
      push_neg at hcond
      obtain rfl : v = n := Option.some.inj hv
      exact ⟨by omega, by omega⟩
  unfold goAtoi at h
  cases hd : pos.data with
  | nil => rw [hd] at h; exact absurd h (by simp)
  | cons c rest =>
    rw [hd] at h
    dsimp only at h
    split at h
    · exact absurd h (by simp)
    · exact key _ h

/-- Below the int64 maximum the wrapping increment is plain addition. -/
theorem int64inc_eq (n : Int) (h1 : -(2 ^ 63) ≤ n) (h2 : n < 2 ^ 63 - 1) :
    int64inc n = n + 1 := by
  unfold int64inc
  have hmod : (n + 1 + 2 ^ 63) % 2 ^ 64 = n + 1 + 2 ^ 63 :=
    Int.emod_eq_of_lt (by omega) (by omega)
  rw [hmod]
  ring

/-- C9 counterexample: the offset string of the int64 maximum parses
with a nil error, but the code wraps position++ to the int64 minimum
and returns (1, 0) after zero loop iterations, while the claimed
algorithm (unbounded increment, then scan) walks the whole script and
yields (2, 2) on this script. -/
theorem C9_wrap_cex :
    goAtoi "9223372036854775807" = some (2 ^ 63 - 1) ∧
    extractLineColumn ("ab\ncd" : String).data "9223372036854775807" = (1, 0, false) ∧
    locateSpec ("ab\ncd" : String).data (2 ^ 63 - 1) = (2, 2) := by
  refine ⟨by decide, ?_, by decide⟩
  unfold extractLineColumn
  rw [(by decide : goAtoi "9223372036854775807" = some (2 ^ 63 - 1))]
  dsimp only
  rw [(by decide : int64inc (2 ^ 63 - 1) = -(2 ^ 63))]
  unfold elcLoop
  rw [dif_neg (fun hh => absurd hh.2 (by decide))]

/-- C9 amended: for every script and every offset string that parses as
an integer, extractLineColumn returns the (line, column) computed by
incrementing the parsed offset by one with the wrapping 64-bit
increment of the code and then scanning from line 1, column 0, counting
columns per non-newline character, treating a carriage return plus
newline as one break, suppressing the increment when the break is the
last character, and stopping at the target offset or the end of the
script; for every parsed offset strictly below the int64 maximum the
increment does not wrap and the originally claimed unbounded-increment
algorithm is returned exactly. -/
theorem C9_locate_agrees :
    (∀ (s : List Char) (pos : String) (n : Int), goAtoi pos = some n →
      extractLineColumn s pos = ((locateWrap s n).1, (locateWrap s n).2, false)) ∧
    (∀ (s : List Char) (pos : String) (n : Int), goAtoi pos = some n →
      n < 2 ^ 63 - 1 →
      extractLineColumn s pos = ((locateSpec s n).1, (locateSpec s n).2, false)) := by
  have ha : ∀ (s : List Char) (pos : String) (n : Int), goAtoi pos = some n →
      extractLineColumn s pos = ((locateWrap s n).1, (locateWrap s n).2, false) := by
    intro s pos n h
    unfold extractLineColumn
    rw [h]
    unfold locateWrap
    have heq := elcLoop_eq_locAux s (int64inc n) s.length s 0 1 0 (le_refl _) (by simp)
    simp only [Nat.cast_zero, sub_zero] at heq
    dsimp only
    rw [heq]
  refine ⟨ha, ?_⟩
  intro s pos n h hlt
  have hb := goAtoi_bounds pos n h
  have hinc : int64inc n = n + 1 := int64inc_eq n hb.1 hlt
  rw [ha s pos n h]
  unfold locateWrap locateSpec
  rw [hinc]

/-- C9 witness: a concrete mixed-ending script and non-extreme offset. -/
theorem C9_locate_agrees_w :
    extractLineColumn ("ab\r\ncd\nee" : String).data "6" =
      ((locateSpec ("ab\r\ncd\nee" : String).data 6).1,
        (locateSpec ("ab\r\ncd\nee" : String).data 6).2, false) :=
  C9_locate_agrees.2 ("ab\r\ncd\nee" : String).data "6" 6 (by decide) (by decide)

/-- C10: for every script, a position string that does not parse as an
integer makes extractLineColumn return line 0, column 0 and a non-nil
error (modelled as the Bool true), and a position string that parses
makes it return a nil error (the Bool false). -/
theorem C10_parse_outcomes :
    (∀ (s : List Char) (pos : String), goAtoi pos = none →
      extractLineColumn s pos = (0, 0, true)) ∧
    (∀ (s : List Char) (pos : String) (n : Int), goAtoi pos = some n →
      (extractLineColumn s pos).2.2 = false) := by
  constructor
  · intro s pos h
    unfold extractLineColumn
    rw [h]
  · intro s pos n h
    unfold extractLineColumn
    rw [h]

/-- C10 witness: a non-numeric position yields (0, 0) and an error. -/
theorem C10_parse_outcomes_w :
    extractLineColumn ("select" : String).data "12a" = (0, 0, true) :=
  C10_parse_outcomes.1 ("select" : String).data "12a" (by decide)
